import Mathlib

/-!
# olin: descriptor table, ABI bindings and handler loop

A shallow embedding of `abi/dagger/process.go` (the `Process` descriptor table,
its syscall entry points and the ABI bindings returned by `ResolveFunc`) and of
`internal/archwayserver/doer.go` (the `handler.handle` loop).

Conventions of the embedding.

* A Go `abi.File` interface value is an `Option File`: `none` is the nil
  interface, `some f` a live resource.  The behaviour of a resource (what its
  `Close`, `Flush`, `Write` and `Read` methods return) is carried by the
  `File` record, because the implementations live outside the two files.
* A Go runtime panic is the `Except.error` outcome of an operation.  Every
  panic site of `process.go` precedes the first write to the `Process`, so a
  caller that recovers sees the `Process` as it was before the call.
* `int` is 64 bits wide (`int(x)` is the identity on an `int64`); `int64`
  arithmetic wraps through `wrapInt64`.
* A Go string is a byte sequence; it is represented by the Lean string whose
  code points are the byte values (`goString`), which is the identity on ASCII.
* Method calls on resources and the entry into `OpenFD` are recorded in a
  list of `Call`s returned next to the result, so that "is invoked once" and
  "is not invoked" can be stated.
-/

namespace Dagger

/-! ## Machine integers -/

/-- Two's-complement wrap of an integer into the `int64` range. -/
def wrapInt64 (x : Int) : Int := (x + 2 ^ 63) % 2 ^ 64 - 2 ^ 63

/-- Conversion `uint32(x)` of an `int64`. -/
def toUint32 (x : Int) : Nat := (x % 2 ^ 32).toNat

/-- Conversion `int32(x)` of an `int64`, and `int32` wrap-around. -/
def toInt32 (x : Int) : Int := (x + 2 ^ 31) % 2 ^ 32 - 2 ^ 31

/-! ## Data model -/

/-- Go runtime panics that the modelled code can raise. -/
inductive Panic where
  | indexOutOfRange
  | nilDereference
  | sliceBounds
  | makeSliceLen
  deriving DecidableEq, Repr

/-- A resource behind the `abi.File` interface.  `closeErr` and `flushErr` say
whether `Close` and `Flush` return a non-nil error; `write data` is the pair
`(n, err ≠ nil)` returned by `Write`; `read n` is what `Read` does with a
buffer of length `n`: the bytes it stores at the front of the buffer, and the
pair `(n, err ≠ nil)` it returns. -/
structure File where
  id : Nat
  closeErr : Bool
  flushErr : Bool
  write : List Nat → Int × Bool
  read : Nat → List Nat × Int × Bool

/-- Method calls on resources, and entries into `OpenFD`, in the order made. -/
inductive Call where
  | openFD (furl : String) (flags : Nat)
  | close (f : File)
  | flush (f : File)
  | write (f : File) (data : List Nat)
  | read (f : File) (n : Nat)

/-- The fields of `Process` that `process.go` reads and writes: `name`,
`files` and `syscalls`.  The jail and the three streams, which the code only
hands to collaborators, are part of `Env`. -/
structure Process where
  name : String
  files : List (Option File)
  syscalls : Int

/-- Result of a syscall entry point: the returned `int64`, the `Process`
afterwards and the calls made. -/
structure Ret where
  ret : Int
  proc : Process
  calls : List Call

/-- `Errno` kinds passed to `makeError` in `open`. -/
inductive ErrorKind where
  | badURL
  | badURLInput
  | unknownScheme
  deriving DecidableEq, Repr

/-- The error value returned by `open`, of which `OpenFD` reads `Errno`. -/
structure Error where
  errno : ErrorKind
  deriving DecidableEq, Repr

/-- Modelled from the spec: `makeError` and the `Error` type are declared
outside the two files; an open failure is reported as "the negated numeric
value of the error kind", so the error built for a kind carries that kind as
its `Errno` (the underlying error is only logged). -/
def makeError (k : ErrorKind) : Error := ⟨k⟩

/-- The fields of `*url.URL` that `open` reads. -/
structure URL where
  scheme : String
  host : String
  path : String
  rawQuery : String
  deriving DecidableEq, Repr

/-- The collaborators of `open` that live outside `process.go`.

* `parse` is `url.Parse` (`none` when it returns an error);
* `queryGet u key` is `u.Query().Get(key)`;
* `jailOpen path` is `p.jail.Open(path)` wrapped in `fileresolver.AferoFile`
  (`none` when `Open` returns an error);
* `atoi` is `strconv.Atoi` (`none` on error);
* `logFile`, `osFile`, `stdin`, `stdout`, `stderr` are the resources built by
  `fileresolver.Log`, `fileresolver.NewOSFile`, `fileresolver.Reader` and
  `fileresolver.Writer` on the process streams;
* `http u` is the resource of `fileresolver.HTTP` (see `httpFile`);
* `errno k` is the numeric value `int64(Errno)` of the error kind `k`;
* `readMem data spare off` is the helper `readMem(vm.Memory, off)` of the
  package, applied to the memory slice (its elements and its spare capacity)
  and an offset; it can panic;
* `maxAlloc` is the largest length that `make([]byte, n)` accepts. -/
structure Env where
  parse : String → Option URL
  queryGet : URL → String → String
  jailOpen : String → Option File
  atoi : String → Option Int
  logFile : String → File
  osFile : Int → String → File
  stdin : File
  stdout : File
  stderr : File
  http : URL → File
  errno : ErrorKind → Int
  readMem : List Nat → List Nat → Nat → Except Panic (List Nat)
  maxAlloc : Nat

/-- `NewProcess(name, jail)`: no open files, no resolved imports. -/
def NewProcess (name : String) : Process := { name := name, files := [], syscalls := 0 }

/-- `Process.SyscallCount`. -/
def Process.SyscallCount (p : Process) : Int := p.syscalls

/-! ## insertFile and open -/

/-- The `for i, f := range p.files` loop of `insertFile`: the index of the
first nil slot, if there is one. -/
def firstNil : List (Option File) → Option Nat
  | [] => none
  | none :: _ => some 0
  | some _ :: rest => (firstNil rest).map (· + 1)

/-- `Process.insertFile`: store `file` in the first nil slot and return its
index; when no slot is nil, append and return the old length. -/
def Process.insertFile (p : Process) (file : Option File) : Nat × Process :=
  match firstNil p.files with
  | some i => (i, { p with files := p.files.set i file })
  | none => (p.files.length, { p with files := p.files ++ [file] })

/-- Modelled from the spec: `fileresolver.HTTP` is declared outside the two
files and `open` discards its error result (`file, _ = ...`); the HTTP client
"constructs a readable/writable Resource from a URL", so the call yields a
resource. -/
def httpFile (env : Env) (u : URL) : File := env.http u

/-- The scheme switch of `Process.open` (everything before the call of
`insertFile`): the resource for `furl`, or the error built by `makeError`. -/
def resolve (env : Env) (furl : String) : Except Error File :=
  match env.parse furl with
  | none => .error (makeError .badURL)
  | some u =>
    if u.scheme = "log" then .ok (env.logFile (env.queryGet u "prefix"))
    else if u.scheme = "file" then
      match env.jailOpen u.path with
      | none => .error (makeError .badURLInput)
      | some f => .ok f
    else if u.scheme = "fd" then
      match env.atoi u.host with
      | none => .error (makeError .badURLInput)
      | some n => .ok (env.osFile n u.host)
    else if u.scheme = "stdin" then .ok env.stdin
    else if u.scheme = "stdout" then .ok env.stdout
    else if u.scheme = "stderr" then .ok env.stderr
    else if u.scheme = "http" ∨ u.scheme = "https" then .ok (httpFile env u)
    else .error (makeError .unknownScheme)

/-- `Process.open`: the error, or the descriptor given by `insertFile`. -/
def Process.open (p : Process) (env : Env) (furl : String) (_flags : Nat) :
    Except Error Nat × Process :=
  match resolve env furl with
  | .error e => (.error e, p)
  | .ok file =>
    let r := p.insertFile (some file)
    (.ok r.1, r.2)

/-- `Process.OpenFD`: `int64(-1 * int64(err.(Error).Errno))` on error, the
descriptor otherwise. -/
def Process.OpenFD (p : Process) (env : Env) (furl : String) (flags : Nat) : Ret :=
  match p.open env furl flags with
  | (.error e, p') => ⟨wrapInt64 (-1 * env.errno e.errno), p', [.openFD furl flags]⟩
  | (.ok fd, p') => ⟨Int.ofNat fd, p', [.openFD furl flags]⟩

/-! ## close, write, flush, read -/

/-- The expression `p.files[fd]` followed by a method call on it: an index
outside the slice and a nil interface both panic. -/
def Process.file (p : Process) (fd : Int) : Except Panic File :=
  if fd < 0 then .error .indexOutOfRange
  else
    match p.files[fd.toNat]? with
    | none => .error .indexOutOfRange
    | some none => .error .nilDereference
    | some (some f) => .ok f

/-- `Process.CloseFD`. -/
def Process.CloseFD (p : Process) (fd : Int) : Except Panic Ret :=
  match p.file fd with
  | .error e => .error e
  | .ok f =>
    if f.closeErr then .ok ⟨-1, p, [.close f]⟩
    else .ok ⟨0, { p with files := p.files.set fd.toNat none }, [.close f]⟩

/-- `Process.WriteFD`. -/
def Process.WriteFD (p : Process) (fd : Int) (data : List Nat) : Except Panic Ret :=
  match p.file fd with
  | .error e => .error e
  | .ok f =>
    if (f.write data).2 then .ok ⟨-1, p, [.write f data]⟩
    else .ok ⟨wrapInt64 (f.write data).1, p, [.write f data]⟩

/-- `Process.FlushFD`. -/
def Process.FlushFD (p : Process) (fd : Int) : Except Panic Ret :=
  match p.file fd with
  | .error e => .error e
  | .ok f =>
    if f.flushErr then .ok ⟨-1, p, [.flush f]⟩
    else .ok ⟨0, p, [.flush f]⟩

/-- The buffer `make([]byte, n)` after a resource stored `bytes` at its front. -/
def fillBuf (n : Nat) (bytes : List Nat) : List Nat :=
  (List.range n).map (fun i => bytes.getD i 0)

/-- `Process.ReadFD`: the result together with the buffer after the call. -/
def Process.ReadFD (p : Process) (fd : Int) (n : Nat) : Except Panic (Ret × List Nat) :=
  match p.file fd with
  | .error e => .error e
  | .ok f =>
    let r := f.read n
    if r.2.2 then .ok (⟨-1, p, [.read f n]⟩, fillBuf n r.1)
    else .ok (⟨wrapInt64 r.2.1, p, [.read f n]⟩, fillBuf n r.1)

/-! ## Guest memory and the ABI bindings of ResolveFunc -/

/-- The slice `vm.Memory`: its `len` elements `data`, and the elements
`spare` of the backing array between `len` and `cap`. -/
structure Memory where
  data : List Nat
  spare : List Nat

/-- Size `len(vm.Memory)` of guest memory. -/
def Memory.size (m : Memory) : Nat := m.data.length

/-- Capacity `cap(vm.Memory)`. -/
def Memory.cap (m : Memory) : Nat := m.data.length + m.spare.length

/-- The slice expression `vm.Memory[lo:hi]`: Go requires
`0 ≤ lo ≤ hi ≤ cap(vm.Memory)` and panics otherwise. -/
def Memory.slice (m : Memory) (lo hi : Int) : Except Panic (List Nat) :=
  if 0 ≤ lo ∧ lo ≤ hi ∧ hi ≤ (m.cap : Int) then
    .ok (((m.data ++ m.spare).drop lo.toNat).take (hi.toNat - lo.toNat))
  else .error .sliceBounds

/-- The expression `f.Locals[i]`. -/
def getLocal (locals : List Int) (i : Nat) : Except Panic Int :=
  match locals[i]? with
  | some v => .ok v
  | none => .error .indexOutOfRange

/-- The conversion `string(bytes)`. -/
def goString (bytes : List Nat) : String := String.mk (bytes.map Char.ofNat)

/-- The loop `for i, d := range buf { vm.Memory[ptr+int32(i)] = d }` of the
`read` binding, from index `i` on; the index is an `int32`. -/
def storeBytes (ptr : Int) : Nat → List Nat → List Nat → Except Panic (List Nat)
  | _, [], data => .ok data
  | i, d :: rest, data =>
    let idx := toInt32 (ptr + toInt32 (Int.ofNat i))
    if idx < 0 ∨ (data.length : Int) ≤ idx then .error .indexOutOfRange
    else storeBytes ptr (i + 1) rest (data.set idx.toNat d)

/-- The closures returned by `ResolveFunc`. -/
inductive Binding where
  | open
  | close
  | write
  | flush
  | read
  deriving DecidableEq, Repr

/-- `Process.ResolveFunc`: `p.syscalls++`, then the binding for the name
pair, or nil. -/
def Process.ResolveFunc (p : Process) (module field : String) : Option Binding × Process :=
  let p' := { p with syscalls := wrapInt64 (p.syscalls + 1) }
  if module = "dagger" ∨ module = "env" then
    if field = "open" then (some .open, p')
    else if field = "close" then (some .close, p')
    else if field = "write" then (some .write, p')
    else if field = "flush" then (some .flush, p')
    else if field = "read" then (some .read, p')
    else (none, p')
  else (none, p')

/-- The `open` closure. -/
def openBinding (env : Env) (p : Process) (mem : Memory) (locals : List Int) :
    Except Panic (Ret × Memory) := do
  let l0 ← getLocal locals 0
  let l1 ← getLocal locals 1
  let furlPtr := toUint32 l0
  let flags := toUint32 l1
  let bytes ← env.readMem mem.data mem.spare furlPtr
  let furl := goString bytes
  pure (p.OpenFD env furl flags, mem)

/-- The `close` closure. -/
def closeBinding (p : Process) (mem : Memory) (locals : List Int) :
    Except Panic (Ret × Memory) := do
  let fd ← getLocal locals 0
  let r ← p.CloseFD fd
  pure (r, mem)

/-- The `write` closure. -/
def writeBinding (p : Process) (mem : Memory) (locals : List Int) :
    Except Panic (Ret × Memory) := do
  let fd ← getLocal locals 0
  let ptr ← getLocal locals 1
  let len ← getLocal locals 2
  let bytes ← mem.slice ptr (wrapInt64 (ptr + len))
  let r ← p.WriteFD fd bytes
  pure (r, mem)

/-- The `flush` closure. -/
def flushBinding (p : Process) (mem : Memory) (locals : List Int) :
    Except Panic (Ret × Memory) := do
  let fd ← getLocal locals 0
  let r ← p.FlushFD fd
  pure (r, mem)

/-- The `read` closure. -/
def readBinding (env : Env) (p : Process) (mem : Memory) (locals : List Int) :
    Except Panic (Ret × Memory) := do
  let fd ← getLocal locals 0
  let l1 ← getLocal locals 1
  let ptr := toInt32 l1
  let len ← getLocal locals 2
  if len < 0 ∨ (env.maxAlloc : Int) < len then throw Panic.makeSliceLen
  let (r, buf) ← p.ReadFD fd len.toNat
  let data ← storeBytes ptr 0 buf mem.data
  pure (r, { mem with data := data })

/-- Invocation of a resolved binding by the guest. -/
def Binding.call (b : Binding) (env : Env) (p : Process) (mem : Memory) (locals : List Int) :
    Except Panic (Ret × Memory) :=
  match b with
  | .open => openBinding env p mem locals
  | .close => closeBinding p mem locals
  | .write => writeBinding p mem locals
  | .flush => flushBinding p mem locals
  | .read => readBinding env p mem locals

/-! ## Sequences of operations on one Process -/

/-- One operation on a `Process`. -/
inductive Op where
  | resolveFunc (module field : String)
  | openFD (furl : String) (flags : Nat)
  | closeFD (fd : Int)
  | writeFD (fd : Int) (data : List Nat)
  | readFD (fd : Int) (n : Nat)
  | flushFD (fd : Int)
  | call (b : Binding) (mem : Memory) (locals : List Int)

/-- The `Process` after an operation that may panic: a panic is raised before
the `Process` is written, so it leaves it as it was. -/
def after (p : Process) (r : Except Panic Process) : Process :=
  match r with
  | .ok p' => p'
  | .error _ => p

/-- The `Process` after one operation. -/
def Op.apply (env : Env) (p : Process) : Op → Process
  | .resolveFunc m f => (p.ResolveFunc m f).2
  | .openFD furl flags => (p.OpenFD env furl flags).proc
  | .closeFD fd => after p ((p.CloseFD fd).map (·.proc))
  | .writeFD fd data => after p ((p.WriteFD fd data).map (·.proc))
  | .readFD fd n => after p ((p.ReadFD fd n).map (·.1.proc))
  | .flushFD fd => after p ((p.FlushFD fd).map (·.proc))
  | .call b mem locals => after p ((b.call env p mem locals).map (·.1.proc))

/-- The `Process` after a sequence of operations. -/
def runOps (env : Env) (p : Process) (ops : List Op) : Process :=
  ops.foldl (Op.apply env) p

/-- Whether an operation is a call of `ResolveFunc`. -/
def Op.isResolve : Op → Bool
  | .resolveFunc _ _ => true
  | _ => false

/-- Whether slot `i` of the table holds a resource. -/
def Process.occupied (p : Process) (i : Nat) : Prop :=
  ∃ f, p.files[i]? = some (some f)

end Dagger

namespace Archway

/-! ## The handler loop of doer.go -/

/-- The reserved control topic compared against in `handle`. -/
def destroyTopic : String := "archway.internal.handler_destroy"

/-- The fields of `*archway.Event` that `handle` reads. -/
structure Event where
  id : String
  data : List Nat
  deriving DecidableEq, Repr

/-- Dynamic type of a message payload: `*archway.Handler` (of which `handle`
reads `Id`), `*archway.Event`, or anything else. -/
inductive Payload where
  | handler (id : String)
  | event (ev : Event)
  | other
  deriving DecidableEq, Repr

/-- A bus message: `GetTopic()` and `GetPayload()`. -/
structure Message where
  topic : String
  payload : Payload
  deriving DecidableEq, Repr

/-- What the loop does that is visible outside it, in order: `h.cancel()`,
the start of `h.VM.Run` with the environment and input bound for the run, its
return `(ret, err ≠ nil)`, and `h.executions.Add(1)`. -/
inductive Obs where
  | cancel
  | invoke (handlerID runID eventID topic : String) (stdin : List Nat)
  | returned (ret : Int) (err : Bool)
  | counted
  deriving DecidableEq, Repr

/-- State of a `handler` and of its context: `myID`, `myTopic`, the value of
the `executions` counter, whether `ctx.Done()` is closed, and two ghost
fields: the number of `VM.Run` calls made and the observations so far. -/
structure Handler where
  myID : String
  myTopic : String
  executions : Int
  cancelled : Bool
  runs : Nat
  trace : List Obs
  deriving DecidableEq, Repr

/-- What the loop does not decide itself.  `vmRun k ev` is the result
`(ret, err ≠ nil)` of the `k`-th `h.VM.Run`, made for event `ev`; `uuid k` is
the `uuid.New()` of that run; `sel n` is the choice of the `select` statement
when `ctx.Done()` is closed and `n` messages have not been taken yet: `true`
takes the next message, `false` takes `ctx.Done()` (Go picks among the ready
cases at random, and a message may not have arrived yet). -/
structure World where
  vmRun : Nat → Event → Int × Bool
  uuid : Nat → String
  sel : Nat → Bool

/-- How a run of the loop over the delivered messages ends: `returned` is the
`return` of the `ctx.Done()` case, `waiting` is the `select` blocked on an
empty subscription with the context live, `panicked` is a failed type
assertion on a payload. -/
inductive Status where
  | returned
  | waiting
  | panicked
  deriving DecidableEq, Repr

/-- `handler.handle` over the messages delivered to its subscription, in
delivery order: the handler afterwards, how the run ends, and the messages not
taken. -/
def handle (w : World) : Handler → List Message → Handler × Status × List Message
  | h, [] => (h, if h.cancelled then .returned else .waiting, [])
  | h, m :: rest =>
    if h.cancelled ∧ w.sel (rest.length + 1) = false then (h, .returned, m :: rest)
    else if m.topic = destroyTopic then
      match m.payload with
      | .handler id =>
        if h.myID = id then
          handle w { h with cancelled := true, trace := h.trace ++ [.cancel] } rest
        else handle w h rest
      | _ => (h, .panicked, rest)
    else
      match m.payload with
      | .event ev =>
        let r := w.vmRun h.runs ev
        handle w
          { h with
            executions := Dagger.wrapInt64 (h.executions + 1)
            runs := h.runs + 1
            trace := h.trace ++
              [.invoke h.myID (w.uuid h.runs) ev.id h.myTopic ev.data, .returned r.1 r.2,
                .counted] }
          rest
      | _ => (h, .panicked, rest)

/-- A delivery to a handler: an Event on its data topic, or a Destroy control
message for handler `id`. -/
inductive Delivery where
  | event (ev : Event)
  | destroy (id : String)
  deriving DecidableEq, Repr

/-- The bus message of a delivery to handler `h`. -/
def Delivery.msg (h : Handler) : Delivery → Message
  | .event ev => ⟨h.myTopic, .event ev⟩
  | .destroy id => ⟨destroyTopic, .handler id⟩

/-- The Event of a delivery, if it is one. -/
def Delivery.event? : Delivery → Option Event
  | .event ev => some ev
  | .destroy _ => none

/-- The observations of the `k`-th guest invocation of `h`, made for `ev`. -/
def invocation (w : World) (h : Handler) (k : Nat) (ev : Event) : List Obs :=
  [.invoke h.myID (w.uuid k) ev.id h.myTopic ev.data,
    .returned (w.vmRun k ev).1 (w.vmRun k ev).2, .counted]

/-- Number of guest invocations in a list of observations. -/
def invocations (t : List Obs) : Nat :=
  t.countP (fun o => match o with | .invoke _ _ _ _ _ => true | _ => false)

end Archway

namespace Sample

/-! ## Concrete collaborators, used to evaluate the definitions -/

open Dagger Archway

/-- A resource whose methods succeed. -/
def goodFile (id : Nat) : File :=
  { id := id, closeErr := false, flushErr := false,
    write := fun data => (data.length, false), read := fun _ => ([], 0, false) }

/-- A resource whose `Close` fails. -/
def stuckFile (id : Nat) : File :=
  { id := id, closeErr := true, flushErr := false,
    write := fun data => (data.length, false), read := fun _ => ([], 0, false) }

/-- What `url.Parse` returns on four well-formed URLs. -/
def parse (s : String) : Option URL :=
  if s = "bogus://x" then some ⟨"bogus", "x", "", ""⟩
  else if s = "file:///missing" then some ⟨"file", "", "/missing", ""⟩
  else if s = "stdin://" then some ⟨"stdin", "", "", ""⟩
  else if s = "stdout://" then some ⟨"stdout", "", "", ""⟩
  else none

/-- An environment with an empty jail and error codes 1, 2, 3. -/
def env : Env :=
  { parse := parse
    queryGet := fun _ _ => ""
    jailOpen := fun _ => none
    atoi := fun _ => none
    logFile := fun _ => goodFile 10
    osFile := fun _ _ => goodFile 11
    stdin := goodFile 0
    stdout := goodFile 1
    stderr := goodFile 2
    http := fun _ => goodFile 12
    errno := fun k =>
      match k with
      | .badURL => 1
      | .badURLInput => 2
      | .unknownScheme => 3
    readMem := fun data _ off => .ok (data.drop off)
    maxAlloc := 2 ^ 40 }

/-- A world whose guest always fails and whose `select` always prefers a
pending message. -/
def world : World :=
  { vmRun := fun _ _ => (-1, true), uuid := fun _ => "run", sel := fun _ => true }

/-- A running handler with id `h1` on topic `jobs`. -/
def handler : Handler :=
  { myID := "h1", myTopic := "jobs", executions := 0, cancelled := false, runs := 0, trace := [] }

/-- A table with one open descriptor. -/
def oneFile : Process := ⟨"guest", [some (goodFile 7)], 0⟩

/-- A table whose only descriptor cannot be closed. -/
def stuckTable : Process := ⟨"guest", [some (stuckFile 8)], 0⟩

/-- The table `oneFile` after descriptor 0 was closed. -/
def closedFile : Process := ⟨"guest", [none], 0⟩

/-- The table `closedFile` after `stdout://` was opened, which reuses slot 0. -/
def reusedFile : Process := ⟨"guest", [some (goodFile 1)], 0⟩

/-- Four bytes of guest memory in a slice without spare capacity. -/
def fullMemory : Memory := ⟨[1, 2, 3, 4], []⟩

/-- Four bytes of guest memory in a slice with two bytes of spare capacity. -/
def spareMemory : Memory := ⟨[1, 2, 3, 4], [9, 9]⟩

/-- Guest memory holding the eight bytes of `stdin://`. -/
def urlMemory : Memory := ⟨[115, 116, 100, 105, 110, 58, 47, 47], []⟩

/-- A running handler whose data topic is the reserved destroy topic. -/
def controlHandler : Handler :=
  { myID := "h1", myTopic := destroyTopic, executions := 0, cancelled := false, runs := 0,
    trace := [] }

/-- An Event with a two-byte payload. -/
def event1 : Event := ⟨"e1", [104, 105]⟩

/-- A second Event. -/
def event2 : Event := ⟨"e2", []⟩

end Sample

namespace Dagger

/-! ## Descriptor allocation -/

theorem firstNil_some {l : List (Option File)} {i : Nat} (h : firstNil l = some i) :
    i < l.length ∧ l[i]? = some none ∧ ∀ j, j < i → ∃ f, l[j]? = some (some f) := by
  induction l generalizing i with
  | nil => simp [firstNil] at h
  | cons a rest ih =>
    cases a with
    | none =>
      simp only [firstNil, Option.some.injEq] at h
      subst h
      simp
    | some f =>
      simp only [firstNil, Option.map_eq_some'] at h
      obtain ⟨k, hk, rfl⟩ := h
      obtain ⟨h1, h2, h3⟩ := ih hk
      refine ⟨by simpa using h1, by simpa using h2, ?_⟩
      intro j hj
      cases j with
      | zero => exact ⟨f, by simp⟩
      | succ j => simpa using h3 j (by omega)

theorem firstNil_none {l : List (Option File)} (h : firstNil l = none) :
    ∀ j, j < l.length → ∃ f, l[j]? = some (some f) := by
  induction l with
  | nil => intro j hj; simp at hj
  | cons a rest ih =>
    cases a with
    | none => simp [firstNil] at h
    | some f =>
      simp only [firstNil, Option.map_eq_none'] at h
      intro j hj
      cases j with
      | zero => exact ⟨f, by simp⟩
      | succ j => simpa using ih h j (by simpa using hj)

/-- What `insertFile` does in an arbitrary table. -/
theorem insertFile_spec (p : Process) (file : Option File) :
    ¬ p.occupied (p.insertFile file).1 ∧
    (∀ j, j < (p.insertFile file).1 → p.occupied j) ∧
    (p.insertFile file).1 ≤ p.files.length ∧
    ((∃ i : Nat, p.files[i]? = some none) →
      p.files[(p.insertFile file).1]? = some none ∧
      (p.insertFile file).2.files.length = p.files.length) ∧
    ((∀ i : Nat, p.files[i]? ≠ some none) →
      (p.insertFile file).1 = p.files.length ∧
      (p.insertFile file).2.files.length = p.files.length + 1) ∧
    (p.insertFile file).2.files[(p.insertFile file).1]? = some file ∧
    (∀ j, j ≠ (p.insertFile file).1 → (p.insertFile file).2.files[j]? = p.files[j]?) ∧
    (p.insertFile file).2.name = p.name ∧
    (p.insertFile file).2.syscalls = p.syscalls := by
  unfold Process.insertFile Process.occupied
  cases hf : firstNil p.files with
  | some i =>
    obtain ⟨h1, h2, h3⟩ := firstNil_some hf
    refine ⟨?_, ?_, ?_, ?_, ?_, ?_, ?_, rfl, rfl⟩
    · simp [h2]
    · exact h3
    · exact Nat.le_of_lt h1
    · intro _
      exact ⟨h2, by simp⟩
    · intro hall
      exact (hall i h2).elim
    · simp [List.getElem?_set, h1]
    · intro j hj
      simp only
      rw [List.getElem?_set_ne (Ne.symm hj)]
  | none =>
    have hall := firstNil_none hf
    refine ⟨?_, ?_, ?_, ?_, ?_, ?_, ?_, rfl, rfl⟩
    · simp
    · exact hall
    · exact Nat.le_refl _
    · rintro ⟨i, hi⟩
      have hlt : i < p.files.length := by
        by_contra hge
        rw [List.getElem?_eq_none (by omega)] at hi
        cases hi
      obtain ⟨f, hf'⟩ := hall i hlt
      rw [hf'] at hi
      cases hi
    · intro _
      exact ⟨rfl, by simp⟩
    · simp
    · intro j hj
      simp only at hj ⊢
      rcases Nat.lt_or_gt_of_ne hj with hlt | hgt
      · rw [List.getElem?_append_left hlt]
      · rw [List.getElem?_eq_none (by simp; omega), List.getElem?_eq_none (by omega)]

end Dagger

namespace Dagger

/-- What a successful `open` does in an arbitrary table. -/
theorem open_ok_spec (env : Env) (p : Process) (furl : String) (flags fd : Nat)
    (p' : Process) (hopen : p.open env furl flags = (.ok fd, p')) :
    ¬ p.occupied fd ∧
    (∀ j, j < fd → p.occupied j) ∧
    ((∃ i : Nat, p.files[i]? = some none) →
      p.files[fd]? = some none ∧ p'.files.length = p.files.length) ∧
    ((∀ i : Nat, p.files[i]? ≠ some none) →
      fd = p.files.length ∧ p'.files.length = p.files.length + 1) ∧
    (∃ f, resolve env furl = .ok f ∧ p'.files[fd]? = some (some f)) ∧
    (∀ j, j ≠ fd → p'.files[j]? = p.files[j]?) := by
  unfold Process.open at hopen
  cases hr : resolve env furl with
  | error k => simp [hr] at hopen
  | ok file =>
    simp only [hr, Prod.mk.injEq, Except.ok.injEq] at hopen
    obtain ⟨hfd, hp'⟩ := hopen
    subst hfd hp'
    obtain ⟨h1, h2, _, h4, h5, h6, h7, _, _⟩ := insertFile_spec p (some file)
    exact ⟨h1, h2, h4, h5, ⟨file, rfl, h6⟩, h7⟩

/-- C1: in the table `p` reached from the empty table by any sequence of
operations, a successful `open` returns the smallest index whose slot holds no
resource: every lower slot is occupied, the returned slot is not (so the
descriptor is not one that is open); when some slot is empty the returned slot
is an empty slot of the old table and the table keeps its length, and when no
slot is empty the descriptor is the old length and the table grows by one; the
returned slot then holds the resource resolved for the URL and every other
slot is as before. -/
theorem open_returns_lowest_free_descriptor (env : Env) (name : String) (ops : List Op)
    (p : Process) (furl : String) (flags fd : Nat) (p' : Process)
    (hreach : runOps env (NewProcess name) ops = p)
    (hopen : p.open env furl flags = (.ok fd, p')) :
    ¬ p.occupied fd ∧
    (∀ j, j < fd → p.occupied j) ∧
    ((∃ i : Nat, p.files[i]? = some none) →
      p.files[fd]? = some none ∧ p'.files.length = p.files.length) ∧
    ((∀ i : Nat, p.files[i]? ≠ some none) →
      fd = p.files.length ∧ p'.files.length = p.files.length + 1) ∧
    (∃ f, resolve env furl = .ok f ∧ p'.files[fd]? = some (some f)) ∧
    (∀ j, j ≠ fd → p'.files[j]? = p.files[j]?) := by
  subst hreach
  exact open_ok_spec env _ furl flags fd p' hopen

/-- Witness of C1: after opening `stdin://` and `stdout://` and closing
descriptor 0, opening `stdout://` again returns descriptor 0. -/
theorem open_returns_lowest_free_descriptor_witness :
    runOps Sample.env (NewProcess "guest")
        [.openFD "stdin://" 0, .openFD "stdout://" 0, .closeFD 0] =
      ⟨"guest", [none, some (Sample.goodFile 1)], 0⟩ ∧
    (⟨"guest", [none, some (Sample.goodFile 1)], 0⟩ : Process).open Sample.env "stdout://" 0 =
      (.ok 0, ⟨"guest", [some (Sample.goodFile 1), some (Sample.goodFile 1)], 0⟩) ∧
    ¬ (⟨"guest", [none, some (Sample.goodFile 1)], 0⟩ : Process).occupied 0 :=
  ⟨by rfl, by rfl,
    (open_returns_lowest_free_descriptor Sample.env "guest"
      [.openFD "stdin://" 0, .openFD "stdout://" 0, .closeFD 0]
      ⟨"guest", [none, some (Sample.goodFile 1)], 0⟩ "stdout://" 0 0
      ⟨"guest", [some (Sample.goodFile 1), some (Sample.goodFile 1)], 0⟩ (by rfl) (by rfl)).1⟩

end Dagger

namespace Dagger

/-! ## Failing opens -/

theorem wrapInt64_of_range {x : Int} (h1 : -2 ^ 63 ≤ x) (h2 : x < 2 ^ 63) :
    wrapInt64 x = x := by
  unfold wrapInt64
  omega

/-- `OpenFD` when the scheme switch fails with kind `k`. -/
theorem OpenFD_of_resolve_error (env : Env) (p : Process) (furl : String) (flags : Nat)
    (k : ErrorKind) (hr : resolve env furl = .error (makeError k)) :
    p.OpenFD env furl flags = ⟨wrapInt64 (-1 * env.errno k), p, [.openFD furl flags]⟩ := by
  simp [Process.OpenFD, Process.open, hr, makeError]

/-- C2: when `open` fails, `OpenFD` returns the negated error code of the
kind of the failure and the `Process` (its descriptor table included) is the
one before the call: `BadURL` when the URL does not parse, `BadURLInput` when
the jail cannot open the path of a `file` URL or the host of an `fd` URL is
not numeric, `UnknownScheme` when the scheme is none of the eight known ones;
so it is for `bogus://x` and, in an empty jail, for `file:///missing`. The
codes are `int64` values other than the least one. -/
theorem OpenFD_failure_returns_negated_errno (env : Env) (p : Process) (furl : String)
    (flags : Nat) (hrange : ∀ k, -2 ^ 63 < env.errno k ∧ env.errno k < 2 ^ 63) :
    (env.parse furl = none →
      p.OpenFD env furl flags = ⟨-(env.errno .badURL), p, [.openFD furl flags]⟩) ∧
    (∀ u, env.parse furl = some u → u.scheme = "file" → env.jailOpen u.path = none →
      p.OpenFD env furl flags = ⟨-(env.errno .badURLInput), p, [.openFD furl flags]⟩) ∧
    (∀ u, env.parse furl = some u → u.scheme = "fd" → env.atoi u.host = none →
      p.OpenFD env furl flags = ⟨-(env.errno .badURLInput), p, [.openFD furl flags]⟩) ∧
    (∀ u, env.parse furl = some u →
      u.scheme ∉ ["log", "file", "fd", "stdin", "stdout", "stderr", "http", "https"] →
      p.OpenFD env furl flags = ⟨-(env.errno .unknownScheme), p, [.openFD furl flags]⟩) ∧
    (env.parse "bogus://x" = some ⟨"bogus", "x", "", ""⟩ →
      p.OpenFD env "bogus://x" 0 =
        ⟨-(env.errno .unknownScheme), p, [.openFD "bogus://x" 0]⟩) ∧
    (env.parse "file:///missing" = some ⟨"file", "", "/missing", ""⟩ →
      (∀ path, env.jailOpen path = none) →
      p.OpenFD env "file:///missing" 0 =
        ⟨-(env.errno .badURLInput), p, [.openFD "file:///missing" 0]⟩) := by
  have hw : ∀ k, wrapInt64 (-1 * env.errno k) = -(env.errno k) := by
    intro k
    have h := hrange k
    rw [wrapInt64_of_range (by omega) (by omega)]
    omega
  refine ⟨?_, ?_, ?_, ?_, ?_, ?_⟩
  · intro hp
    rw [OpenFD_of_resolve_error env p furl flags .badURL (by simp [resolve, hp]), hw]
  · intro u hp hs hj
    rw [OpenFD_of_resolve_error env p furl flags .badURLInput (by simp [resolve, hp, hs, hj]),
      hw]
  · intro u hp hs ha
    rw [OpenFD_of_resolve_error env p furl flags .badURLInput (by simp [resolve, hp, hs, ha]),
      hw]
  · intro u hp hs
    simp only [List.mem_cons, List.mem_singleton, List.not_mem_nil, or_false, not_or] at hs
    obtain ⟨h1, h2, h3, h4, h5, h6, h7, h8⟩ := hs
    rw [OpenFD_of_resolve_error env p furl flags .unknownScheme
      (by simp [resolve, hp, h1, h2, h3, h4, h5, h6, h7, h8]), hw]
  · intro hp
    rw [OpenFD_of_resolve_error env p "bogus://x" 0 .unknownScheme (by simp [resolve, hp]), hw]
  · intro hp hj
    rw [OpenFD_of_resolve_error env p "file:///missing" 0 .badURLInput
      (by simp [resolve, hp, hj]), hw]

/-- Witness of C2: with error codes 1, 2, 3 and an empty jail, `bogus://x`
gives -3 and `file:///missing` gives -2, and no descriptor is allocated. -/
theorem OpenFD_failure_returns_negated_errno_witness :
    (NewProcess "guest").OpenFD Sample.env "bogus://x" 0 =
      ⟨-3, NewProcess "guest", [.openFD "bogus://x" 0]⟩ ∧
    (NewProcess "guest").OpenFD Sample.env "file:///missing" 0 =
      ⟨-2, NewProcess "guest", [.openFD "file:///missing" 0]⟩ :=
  ⟨(OpenFD_failure_returns_negated_errno Sample.env (NewProcess "guest") "bogus://x" 0
      (by intro k; cases k <;> decide)).2.2.2.2.1 (by rfl),
    (OpenFD_failure_returns_negated_errno Sample.env (NewProcess "guest") "file:///missing" 0
      (by intro k; cases k <;> decide)).2.2.2.2.2 (by rfl) (fun _ => rfl)⟩

/-! ## Close -/

theorem file_ok_iff (p : Process) (fd : Int) (f : File) :
    p.file fd = .ok f ↔ 0 ≤ fd ∧ p.files[fd.toNat]? = some (some f) := by
  unfold Process.file
  by_cases h : fd < 0
  · simp [h]
  · simp only [h, if_false]
    have h0 : 0 ≤ fd := by omega
    cases hl : p.files[fd.toNat]? with
    | none => simp [h0]
    | some o =>
      cases o with
      | none => simp [h0]
      | some g => simp [h0]

/-- What `CloseFD` does on a slot that holds a resource. -/
theorem CloseFD_slot_spec (p : Process) (fd : Nat) (f : File)
    (hopen : p.files[fd]? = some (some f)) :
    (f.closeErr = false →
      ∃ p', p.CloseFD fd = .ok ⟨0, p', [.close f]⟩ ∧
        p'.files[fd]? = some none ∧
        (∀ j, j ≠ fd → p'.files[j]? = p.files[j]?) ∧
        p'.files.length = p.files.length ∧
        (∀ file, (p'.insertFile file).1 ≤ fd)) ∧
    (f.closeErr = true → p.CloseFD fd = .ok ⟨-1, p, [.close f]⟩) := by
  have hf : p.file (fd : Int) = .ok f := by
    rw [file_ok_iff]
    exact ⟨by omega, by simpa using hopen⟩
  have hlt : fd < p.files.length := by
    by_contra hge
    rw [List.getElem?_eq_none (by omega)] at hopen
    cases hopen
  constructor
  · intro hc
    refine ⟨{ p with files := p.files.set fd none }, ?_, ?_, ?_, ?_, ?_⟩
    · simp [Process.CloseFD, hf, hc]
    · simp [List.getElem?_set, hlt]
    · intro j hj
      simp only
      rw [List.getElem?_set_ne (Ne.symm hj)]
    · simp
    · intro file
      by_contra hgt
      have hocc := (insertFile_spec { p with files := p.files.set fd none } file).2.1 fd
        (by omega)
      obtain ⟨g, hg⟩ := hocc
      simp [List.getElem?_set, hlt] at hg
  · intro hc
    simp [Process.CloseFD, hf, hc]

/-- C3: for a descriptor `fd` whose slot holds the resource `f`, `CloseFD`
calls `Close` on `f` once and nothing else; if `Close` succeeds the result is
0, slot `fd` is empty, the first empty slot of the table is then at most `fd`,
and every other slot is as before; if `Close` fails the result is -1 and the
`Process` is as before. -/
theorem CloseFD_open_descriptor (p : Process) (fd : Nat) (f : File)
    (hopen : p.files[fd]? = some (some f)) :
    (f.closeErr = false →
      ∃ p', p.CloseFD fd = .ok ⟨0, p', [.close f]⟩ ∧
        p'.files[fd]? = some none ∧
        (∀ j, j ≠ fd → p'.files[j]? = p.files[j]?) ∧
        p'.files.length = p.files.length ∧
        (∀ file, (p'.insertFile file).1 ≤ fd)) ∧
    (f.closeErr = true → p.CloseFD fd = .ok ⟨-1, p, [.close f]⟩) :=
  CloseFD_slot_spec p fd f hopen

/-- Witness of C3: closing descriptor 0 of a one-slot table, with a resource
that closes without error and with one whose `Close` fails. -/
theorem CloseFD_open_descriptor_witness :
    Sample.oneFile.files[0]? = some (some (Sample.goodFile 7)) ∧
    (∃ p', Sample.oneFile.CloseFD ((0 : Nat) : Int) =
        .ok ⟨0, p', [.close (Sample.goodFile 7)]⟩ ∧
      p'.files[0]? = some none ∧
      (∀ j, j ≠ 0 → p'.files[j]? = Sample.oneFile.files[j]?) ∧
      p'.files.length = Sample.oneFile.files.length ∧
      (∀ file, (p'.insertFile file).1 ≤ 0)) ∧
    Sample.stuckTable.files[0]? = some (some (Sample.stuckFile 8)) ∧
    Sample.stuckTable.CloseFD ((0 : Nat) : Int) =
      .ok ⟨-1, Sample.stuckTable, [.close (Sample.stuckFile 8)]⟩ :=
  ⟨rfl, (CloseFD_open_descriptor Sample.oneFile 0 (Sample.goodFile 7) rfl).1 rfl, rfl,
    (CloseFD_open_descriptor Sample.stuckTable 0 (Sample.stuckFile 8) rfl).2 rfl⟩

end Dagger

namespace Dagger

/-! ## Guest memory ranges passed to write -/

/-- Counterexample to C4: with four bytes of guest memory, `write(0, 2, 4)`
has `ptr+len = 6 > 4`. When the slice has no spare capacity the binding
panics with a slice-bounds error and returns nothing to the guest; when the
slice has two bytes of spare capacity it calls `Write` with four bytes, two of
them from beyond the guest's memory. -/
theorem writeBinding_past_size_counterexample :
    (Sample.fullMemory.size : Int) < 2 + 4 ∧
    writeBinding Sample.oneFile Sample.fullMemory [0, 2, 4] = .error .sliceBounds ∧
    (Sample.spareMemory.size : Int) < 2 + 4 ∧
    writeBinding Sample.oneFile Sample.spareMemory [0, 2, 4] =
      .ok (⟨4, Sample.oneFile, [.write (Sample.goodFile 7) [3, 4, 9, 9]]⟩,
        Sample.spareMemory) := by
  refine ⟨by decide, by rfl, by decide, by rfl⟩

/-- C4 as amended: for `int64` arguments with `ptr+len` above the capacity of
the guest memory slice, the `write` binding panics with a slice-bounds error:
it returns no value, and as `WriteFD` is not reached no `Write` is invoked and
the `Process` is not written. -/
theorem writeBinding_past_capacity_panics (env : Env) (p : Process) (mem : Memory)
    (fd ptr len : Int)
    (hptr : -2 ^ 63 ≤ ptr ∧ ptr < 2 ^ 63) (hlen : -2 ^ 63 ≤ len ∧ len < 2 ^ 63)
    (hcap : (mem.cap : Int) < ptr + len) :
    writeBinding p mem [fd, ptr, len] = .error .sliceBounds ∧
    Op.apply env p (.call .write mem [fd, ptr, len]) = p := by
  have hs : mem.slice ptr (wrapInt64 (ptr + len)) = .error .sliceBounds := by
    unfold Memory.slice
    rw [if_neg]
    intro hb
    obtain ⟨h0, h1, h2⟩ := hb
    unfold wrapInt64 at h1 h2
    omega
  have hw : writeBinding p mem [fd, ptr, len] = .error .sliceBounds := by
    simp [writeBinding, getLocal, hs, bind, Except.bind]
  refine ⟨hw, ?_⟩
  simp [Op.apply, Binding.call, hw, after, Except.map]

/-- Witness of C4 as amended: `write(0, 2, 4)` on four bytes of memory. -/
theorem writeBinding_past_capacity_panics_witness :
    (Sample.fullMemory.cap : Int) < 2 + 4 ∧
    writeBinding Sample.oneFile Sample.fullMemory [0, 2, 4] = .error .sliceBounds :=
  ⟨by decide,
    (writeBinding_past_capacity_panics Sample.env Sample.oneFile Sample.fullMemory 0 2 4
      (by decide) (by decide) (by decide)).1⟩

end Dagger

namespace Dagger

/-! ## Descriptors outside the table, and closing twice -/

theorem file_out_of_range (p : Process) (fd : Int)
    (h : fd < 0 ∨ (p.files.length : Int) ≤ fd) : p.file fd = .error .indexOutOfRange := by
  unfold Process.file
  by_cases h0 : fd < 0
  · simp [h0]
  · have hge : p.files.length ≤ fd.toNat := by omega
    simp [h0, List.getElem?_eq_none hge]

/-- Counterexample to C5: on the empty table `CloseFD(0)` panics with an
index-out-of-range error; it does not return -1. -/
theorem CloseFD_out_of_range_counterexample :
    ((NewProcess "guest").files.length : Int) ≤ 0 ∧
    (NewProcess "guest").CloseFD 0 = .error .indexOutOfRange ∧
    ¬ ∃ p', ∃ calls, (NewProcess "guest").CloseFD 0 = .ok ⟨-1, p', calls⟩ := by
  refine ⟨by decide, by rfl, ?_⟩
  rintro ⟨p', calls, h⟩
  have h' : (NewProcess "guest").CloseFD 0 = .error .indexOutOfRange := by rfl
  rw [h'] at h
  cases h

/-- C5 as amended: for a descriptor that is negative or at least the table
length, `CloseFD`, `WriteFD`, `ReadFD` and `FlushFD` panic on the index
expression `p.files[fd]` with an index-out-of-range error: no value is
returned, no method of a resource is reached, and the `Process` is as before
the call. -/
theorem FD_operations_out_of_range_panic (env : Env) (p : Process) (fd : Int)
    (data : List Nat) (n : Nat) (h : fd < 0 ∨ (p.files.length : Int) ≤ fd) :
    p.CloseFD fd = .error .indexOutOfRange ∧
    p.WriteFD fd data = .error .indexOutOfRange ∧
    p.ReadFD fd n = .error .indexOutOfRange ∧
    p.FlushFD fd = .error .indexOutOfRange ∧
    Op.apply env p (.closeFD fd) = p ∧
    Op.apply env p (.writeFD fd data) = p ∧
    Op.apply env p (.readFD fd n) = p ∧
    Op.apply env p (.flushFD fd) = p := by
  have hf := file_out_of_range p fd h
  have h1 : p.CloseFD fd = .error .indexOutOfRange := by simp [Process.CloseFD, hf]
  have h2 : p.WriteFD fd data = .error .indexOutOfRange := by simp [Process.WriteFD, hf]
  have h3 : p.ReadFD fd n = .error .indexOutOfRange := by simp [Process.ReadFD, hf]
  have h4 : p.FlushFD fd = .error .indexOutOfRange := by simp [Process.FlushFD, hf]
  refine ⟨h1, h2, h3, h4, ?_, ?_, ?_, ?_⟩ <;>
    simp [Op.apply, after, Except.map, h1, h2, h3, h4]

/-- Witness of C5 as amended: descriptor 3 in a one-slot table. -/
theorem FD_operations_out_of_range_panic_witness :
    (Sample.oneFile.files.length : Int) ≤ 3 ∧
    Sample.oneFile.CloseFD 3 = .error .indexOutOfRange ∧
    Sample.oneFile.WriteFD 3 [1] = .error .indexOutOfRange ∧
    Sample.oneFile.ReadFD 3 1 = .error .indexOutOfRange ∧
    Sample.oneFile.FlushFD 3 = .error .indexOutOfRange :=
  have h := FD_operations_out_of_range_panic Sample.env Sample.oneFile 3 [1] 1
    (Or.inr (by decide))
  ⟨by decide, h.1, h.2.1, h.2.2.1, h.2.2.2.1⟩

/-- Counterexample to C6: in a table whose descriptor 0 was closed with
success, a second `CloseFD(0)` panics on the nil slot; and once `stdout://`
has been opened in between, which reuses descriptor 0, the second `CloseFD(0)`
calls `Close` on that resource and returns 0. -/
theorem CloseFD_twice_counterexample :
    Sample.oneFile.CloseFD 0 = .ok ⟨0, Sample.closedFile, [.close (Sample.goodFile 7)]⟩ ∧
    Sample.closedFile.CloseFD 0 = .error .nilDereference ∧
    Sample.closedFile.OpenFD Sample.env "stdout://" 0 =
      ⟨0, Sample.reusedFile, [.openFD "stdout://" 0]⟩ ∧
    Sample.reusedFile.CloseFD 0 =
      .ok ⟨0, Sample.closedFile, [.close (Sample.goodFile 1)]⟩ := by
  refine ⟨by rfl, by rfl, by rfl, by rfl⟩

/-- What a successful `CloseFD` says about the table before and after. -/
theorem CloseFD_ok_zero (p : Process) (fd : Int) (r : Ret) (h : p.CloseFD fd = .ok r)
    (h0 : r.ret = 0) :
    0 ≤ fd ∧ (∃ f, p.files[fd.toNat]? = some (some f) ∧ f.closeErr = false) ∧
    r.proc = { p with files := p.files.set fd.toNat none } := by
  unfold Process.CloseFD at h
  cases hf : p.file fd with
  | error e => simp [hf] at h
  | ok f =>
    have hf' := (file_ok_iff p fd f).1 hf
    by_cases hc : f.closeErr = true
    · simp [hf, hc] at h
      subst h
      simp at h0
    · simp only [Bool.not_eq_true] at hc
      simp [hf, hc] at h
      subst h
      exact ⟨hf'.1, ⟨f, hf'.2, hc⟩, rfl⟩

/-- C6 as amended: after a first `CloseFD(fd)` that returned 0, a second
`CloseFD(fd)` with nothing opened in between panics on the nil slot, before
the table is written; if an `open` in between returned `fd` again, for a
resource `g`, the second `CloseFD(fd)` calls `Close` on `g` and behaves as the
close of `g`: 0 and slot `fd` emptied when it succeeds, -1 and the table
unchanged when it fails. In each case every other slot is as before. -/
theorem CloseFD_twice (env : Env) (p : Process) (fd : Int) (r : Ret)
    (hfirst : p.CloseFD fd = .ok r) (hzero : r.ret = 0) :
    r.proc.CloseFD fd = .error .nilDereference ∧
    Op.apply env r.proc (.closeFD fd) = r.proc ∧
    (∀ furl flags p2, r.proc.open env furl flags = (.ok fd.toNat, p2) →
      ∃ g, resolve env furl = .ok g ∧ p2.files[fd.toNat]? = some (some g) ∧
        (g.closeErr = true → p2.CloseFD fd = .ok ⟨-1, p2, [.close g]⟩) ∧
        (g.closeErr = false →
          ∃ p3, p2.CloseFD fd = .ok ⟨0, p3, [.close g]⟩ ∧ p3.files[fd.toNat]? = some none ∧
            ∀ j, j ≠ fd.toNat → p3.files[j]? = r.proc.files[j]?)) := by
  obtain ⟨hfd, ⟨f, hslot, _⟩, hproc⟩ := CloseFD_ok_zero p fd r hfirst hzero
  have hlt : fd.toNat < p.files.length := by
    by_contra hge
    rw [List.getElem?_eq_none (by omega)] at hslot
    cases hslot
  have hnil : r.proc.files[fd.toNat]? = some none := by
    rw [hproc]
    simp [List.getElem?_set, hlt]
  have hpanic : r.proc.CloseFD fd = .error .nilDereference := by
    have : ¬ fd < 0 := by omega
    simp [Process.CloseFD, Process.file, this, hnil]
  refine ⟨hpanic, by simp [Op.apply, after, Except.map, hpanic], ?_⟩
  intro furl flags p2 hopen
  obtain ⟨_, _, _, _, ⟨g, hg, hslot2⟩, hothers⟩ :=
    open_ok_spec env r.proc furl flags fd.toNat p2 hopen
  have hcast : ((fd.toNat : Nat) : Int) = fd := Int.toNat_of_nonneg hfd
  have hclose := CloseFD_slot_spec p2 fd.toNat g hslot2
  rw [hcast] at hclose
  refine ⟨g, hg, hslot2, hclose.2, ?_⟩
  intro hc
  obtain ⟨p3, h3, h3slot, h3others, _, _⟩ := hclose.1 hc
  refine ⟨p3, h3, h3slot, ?_⟩
  intro j hj
  rw [h3others j hj, hothers j hj]

/-- Witness of C6 as amended: the table `oneFile`, descriptor 0. -/
theorem CloseFD_twice_witness :
    Sample.oneFile.CloseFD 0 = .ok ⟨0, Sample.closedFile, [.close (Sample.goodFile 7)]⟩ ∧
    Sample.closedFile.CloseFD 0 = .error .nilDereference :=
  ⟨by rfl,
    (CloseFD_twice Sample.env Sample.oneFile 0
      ⟨0, Sample.closedFile, [.close (Sample.goodFile 7)]⟩ (by rfl) rfl).1⟩

end Dagger

namespace Dagger

/-! ## The import-resolution counter -/

theorem insertFile_syscalls (p : Process) (file : Option File) :
    (p.insertFile file).2.syscalls = p.syscalls :=
  (insertFile_spec p file).2.2.2.2.2.2.2.2

theorem OpenFD_syscalls (env : Env) (p : Process) (furl : String) (flags : Nat) :
    (p.OpenFD env furl flags).proc.syscalls = p.syscalls := by
  unfold Process.OpenFD Process.open
  cases hr : resolve env furl with
  | error k => rfl
  | ok file => exact insertFile_syscalls p (some file)

theorem CloseFD_syscalls (p : Process) (fd : Int) (r : Ret) (h : p.CloseFD fd = .ok r) :
    r.proc.syscalls = p.syscalls := by
  unfold Process.CloseFD at h
  cases hf : p.file fd with
  | error e => simp [hf] at h
  | ok f =>
    by_cases hc : f.closeErr = true
    · simp [hf, hc] at h
      subst h
      rfl
    · simp [hf, hc] at h
      subst h
      rfl

theorem WriteFD_proc (p : Process) (fd : Int) (data : List Nat) (r : Ret)
    (h : p.WriteFD fd data = .ok r) : r.proc = p := by
  unfold Process.WriteFD at h
  cases hf : p.file fd with
  | error e => simp [hf] at h
  | ok f =>
    by_cases hc : (f.write data).2 = true
    · simp [hf, hc] at h
      subst h
      rfl
    · simp [hf, hc] at h
      subst h
      rfl

theorem FlushFD_proc (p : Process) (fd : Int) (r : Ret) (h : p.FlushFD fd = .ok r) :
    r.proc = p := by
  unfold Process.FlushFD at h
  cases hf : p.file fd with
  | error e => simp [hf] at h
  | ok f =>
    by_cases hc : f.flushErr = true
    · simp [hf, hc] at h
      subst h
      rfl
    · simp [hf, hc] at h
      subst h
      rfl

theorem ReadFD_proc (p : Process) (fd : Int) (n : Nat) (r : Ret × List Nat)
    (h : p.ReadFD fd n = .ok r) : r.1.proc = p := by
  unfold Process.ReadFD at h
  cases hf : p.file fd with
  | error e => simp [hf] at h
  | ok f =>
    by_cases hc : (f.read n).2.2 = true
    · simp [hf, hc] at h
      subst h
      rfl
    · simp [hf, hc] at h
      subst h
      rfl

theorem call_syscalls (b : Binding) (env : Env) (p : Process) (mem : Memory)
    (locals : List Int) (r : Ret × Memory) (h : b.call env p mem locals = .ok r) :
    r.1.proc.syscalls = p.syscalls := by
  rcases b with _ | _ | _ | _ | _
  · simp only [Binding.call, openBinding, bind, Except.bind, pure, Except.pure] at h
    repeat' (split at h <;> try contradiction)
    cases h
    exact OpenFD_syscalls env p _ _
  · simp only [Binding.call, closeBinding, bind, Except.bind, pure, Except.pure] at h
    repeat' (split at h <;> try contradiction)
    cases h
    exact CloseFD_syscalls p _ _ (by assumption)
  · simp only [Binding.call, writeBinding, bind, Except.bind, pure, Except.pure] at h
    repeat' (split at h <;> try contradiction)
    cases h
    rw [WriteFD_proc p _ _ _ (by assumption)]
  · simp only [Binding.call, flushBinding, bind, Except.bind, pure, Except.pure] at h
    repeat' (split at h <;> try contradiction)
    cases h
    rw [FlushFD_proc p _ _ (by assumption)]
  · simp only [Binding.call, readBinding, bind, Except.bind, pure, Except.pure] at h
    repeat' (split at h <;> try contradiction)
    cases h
    rw [ReadFD_proc p _ _ _ (by assumption)]

theorem wrapInt64_succ (a : Int) : wrapInt64 (wrapInt64 a + 1) = wrapInt64 (a + 1) := by
  unfold wrapInt64
  omega

theorem ResolveFunc_syscalls (p : Process) (module field : String) :
    (p.ResolveFunc module field).2.syscalls = wrapInt64 (p.syscalls + 1) := by
  unfold Process.ResolveFunc
  simp only
  repeat' split
  all_goals rfl

theorem after_syscalls (p : Process) (r : Except Panic Process)
    (h : ∀ p', r = .ok p' → p'.syscalls = p.syscalls) : (after p r).syscalls = p.syscalls := by
  cases r with
  | error e => rfl
  | ok p' => exact h p' rfl

/-- Operations other than `ResolveFunc` leave the counter as it is. -/
theorem apply_syscalls_of_not_resolve (env : Env) (p : Process) (op : Op)
    (h : op.isResolve = false) : (op.apply env p).syscalls = p.syscalls := by
  cases op with
  | resolveFunc m f => simp [Op.isResolve] at h
  | openFD furl flags => exact OpenFD_syscalls env p furl flags
  | closeFD fd =>
    refine after_syscalls p _ ?_
    intro p' hp'
    cases hr : p.CloseFD fd with
    | error e => simp [hr, Except.map] at hp'
    | ok r =>
      simp [hr, Except.map] at hp'
      subst hp'
      exact CloseFD_syscalls p fd r hr
  | writeFD fd data =>
    refine after_syscalls p _ ?_
    intro p' hp'
    cases hr : p.WriteFD fd data with
    | error e => simp [hr, Except.map] at hp'
    | ok r =>
      simp [hr, Except.map] at hp'
      subst hp'
      rw [WriteFD_proc p fd data r hr]
  | readFD fd n =>
    refine after_syscalls p _ ?_
    intro p' hp'
    cases hr : p.ReadFD fd n with
    | error e => simp [hr, Except.map] at hp'
    | ok r =>
      simp [hr, Except.map] at hp'
      subst hp'
      rw [ReadFD_proc p fd n r hr]
  | flushFD fd =>
    refine after_syscalls p _ ?_
    intro p' hp'
    cases hr : p.FlushFD fd with
    | error e => simp [hr, Except.map] at hp'
    | ok r =>
      simp [hr, Except.map] at hp'
      subst hp'
      rw [FlushFD_proc p fd r hr]
  | call b mem locals =>
    refine after_syscalls p _ ?_
    intro p' hp'
    cases hr : b.call env p mem locals with
    | error e => simp [hr, Except.map] at hp'
    | ok r =>
      simp [hr, Except.map] at hp'
      subst hp'
      exact call_syscalls b env p mem locals r hr

end Dagger

namespace Dagger

theorem wrapInt64_idem (a : Int) : wrapInt64 (wrapInt64 a) = wrapInt64 a := by
  unfold wrapInt64
  omega

theorem wrapInt64_add_succ (s : Int) (c : Nat) :
    wrapInt64 (wrapInt64 (s + 1) + (c : Int)) = wrapInt64 (s + ((c + 1 : Nat) : Int)) := by
  unfold wrapInt64
  push_cast
  omega

/-- The counter after a sequence of operations, from a `Process` whose counter
is an `int` value. -/
theorem runOps_syscalls (env : Env) (ops : List Op) (p : Process)
    (hp : wrapInt64 p.syscalls = p.syscalls) :
    (runOps env p ops).syscalls = wrapInt64 (p.syscalls + (ops.countP Op.isResolve : Nat)) := by
  induction ops generalizing p with
  | nil => simpa [runOps] using hp.symm
  | cons op rest ih =>
    have hstep : runOps env p (op :: rest) = runOps env (op.apply env p) rest := rfl
    rw [hstep]
    cases hop : op.isResolve with
    | false =>
      have hs := apply_syscalls_of_not_resolve env p op hop
      rw [ih (op.apply env p) (by rw [hs]; exact hp), hs]
      simp [List.countP_cons, hop]
    | true =>
      cases op with
      | resolveFunc m f =>
        have hs : ((Op.resolveFunc m f).apply env p).syscalls = wrapInt64 (p.syscalls + 1) :=
          ResolveFunc_syscalls p m f
        rw [ih _ (by rw [hs]; exact wrapInt64_idem _), hs, wrapInt64_add_succ]
        simp [List.countP_cons, Op.isResolve]
      | openFD _ _ => simp [Op.isResolve] at hop
      | closeFD _ => simp [Op.isResolve] at hop
      | writeFD _ _ => simp [Op.isResolve] at hop
      | readFD _ _ => simp [Op.isResolve] at hop
      | flushFD _ => simp [Op.isResolve] at hop
      | call _ _ _ => simp [Op.isResolve] at hop

/-- C9: after any sequence of operations on a new `Process`, `SyscallCount`
is the number of `ResolveFunc` calls in the sequence, as an `int` (so exactly
that number below `2^63` calls): each `ResolveFunc` call, whatever the name
pair, adds one, and an `OpenFD`, `CloseFD`, `WriteFD`, `ReadFD` or `FlushFD`
call or an invocation of a resolved binding leaves the counter as it is. -/
theorem SyscallCount_counts_ResolveFunc (env : Env) (name : String) (ops : List Op) :
    (runOps env (NewProcess name) ops).SyscallCount =
      wrapInt64 ((ops.countP Op.isResolve : Nat) : Int) ∧
    (((ops.countP Op.isResolve : Nat) : Int) < 2 ^ 63 →
      (runOps env (NewProcess name) ops).SyscallCount = ((ops.countP Op.isResolve : Nat) : Int)) ∧
    (∀ p module field,
      ((Op.resolveFunc module field).apply env p).SyscallCount =
        wrapInt64 (p.SyscallCount + 1)) ∧
    (∀ p op, Op.isResolve op = false → (op.apply env p).SyscallCount = p.SyscallCount) := by
  have h := runOps_syscalls env ops (NewProcess name) (by rfl)
  have h0 : (NewProcess name).syscalls = 0 := rfl
  rw [h0, zero_add] at h
  refine ⟨h, ?_, fun p m f => ResolveFunc_syscalls p m f,
    fun p op hop => apply_syscalls_of_not_resolve env p op hop⟩
  intro hlt
  unfold Process.SyscallCount
  rw [h, wrapInt64_of_range (by omega) hlt]

/-- Witness of C9: two `ResolveFunc` calls, one of an unknown name pair,
among an open, a close, a write through the binding and a failing close. -/
theorem SyscallCount_counts_ResolveFunc_witness :
    (runOps Sample.env (NewProcess "guest")
      [.resolveFunc "env" "write", .openFD "stdout://" 0, .resolveFunc "env" "nothing",
        .call .write Sample.fullMemory [0, 1, 2], .closeFD 0, .closeFD 0]).SyscallCount = 2 :=
  (SyscallCount_counts_ResolveFunc Sample.env "guest"
    [.resolveFunc "env" "write", .openFD "stdout://" 0, .resolveFunc "env" "nothing",
      .call .write Sample.fullMemory [0, 1, 2], .closeFD 0, .closeFD 0]).2.1 (by decide)

/-! ## The open binding -/

/-- C10, what the code does: the `open` binding passes to `OpenFD` the string
that `readMem` returns for the offset `uint32(Locals[0])`, and the flags
`uint32(Locals[1])`: the second argument is the flags and is not a length, the
URL does not depend on it, and the third argument is not read. -/
theorem openBinding_takes_flags_from_second_local (env : Env) (p : Process) (mem : Memory)
    (a0 a1 a2 : Int) :
    openBinding env p mem [a0, a1, a2] =
      (match env.readMem mem.data mem.spare (toUint32 a0) with
      | .error e => .error e
      | .ok bytes => .ok (p.OpenFD env (goString bytes) (toUint32 a1), mem)) ∧
    (∀ a2', openBinding env p mem [a0, a1, a2'] = openBinding env p mem [a0, a1, a2]) ∧
    (∀ r, openBinding env p mem [a0, a1, a2] = .ok r →
      ∃ bytes, env.readMem mem.data mem.spare (toUint32 a0) = .ok bytes ∧
        r.1.calls = [.openFD (goString bytes) (toUint32 a1)]) := by
  have h : ∀ a, openBinding env p mem [a0, a1, a] =
      (match env.readMem mem.data mem.spare (toUint32 a0) with
      | .error e => .error e
      | .ok bytes => .ok (p.OpenFD env (goString bytes) (toUint32 a1), mem)) := by
    intro a
    simp only [openBinding, getLocal, bind, Except.bind, pure, Except.pure,
      List.getElem?_cons_zero, List.getElem?_cons_succ]
    cases env.readMem mem.data mem.spare (toUint32 a0) <;> rfl
  refine ⟨h a2, fun a2' => by rw [h a2', h a2], ?_⟩
  intro r hr
  rw [h a2] at hr
  cases hm : env.readMem mem.data mem.spare (toUint32 a0) with
  | error e => simp [hm] at hr
  | ok bytes =>
    simp only [hm, Except.ok.injEq] at hr
    subst hr
    refine ⟨bytes, rfl, ?_⟩
    unfold Process.OpenFD
    split <;> rfl

/-- The call `open(0, 8, 5)` on memory holding the eight bytes of
`stdin://`, with a `readMem` that returns the bytes from the offset on:
`OpenFD` is entered with flags 8, the second argument. -/
theorem openBinding_sample_call :
    openBinding Sample.env (NewProcess "guest") Sample.urlMemory [0, 8, 5] =
      .ok (⟨0, ⟨"guest", [some (Sample.goodFile 0)], 0⟩, [.openFD "stdin://" 8]⟩,
        Sample.urlMemory) := by
  rfl

end Dagger

namespace Archway

open Dagger

/-! ## The handler loop -/

theorem invocations_append (s t : List Obs) :
    invocations (s ++ t) = invocations s + invocations t := by
  simp [invocations, List.countP_append]

/-- The loop on a live handler whose data topic is not the destroy topic,
over Events on that topic and Destroy messages for other handlers. -/
theorem handle_deliveries (w : World) (ds : List Delivery) (h : Handler)
    (htopic : h.myTopic ≠ destroyTopic) (hlive : h.cancelled = false)
    (hexec : wrapInt64 h.executions = h.executions)
    (hdestroy : ∀ id, Delivery.destroy id ∈ ds → id ≠ h.myID) :
    ∃ h', handle w h (ds.map (Delivery.msg h)) = (h', .waiting, []) ∧
      h'.executions =
        wrapInt64 (h.executions + ((ds.filterMap Delivery.event?).length : Nat)) ∧
      h'.runs = h.runs + (ds.filterMap Delivery.event?).length ∧
      h'.trace = h.trace ++
        ((ds.filterMap Delivery.event?).enumFrom h.runs).flatMap
          (fun ke => invocation w h ke.1 ke.2) ∧
      invocations h'.trace = invocations h.trace + (ds.filterMap Delivery.event?).length ∧
      h'.cancelled = false ∧ h'.myID = h.myID ∧ h'.myTopic = h.myTopic := by
  induction ds generalizing h with
  | nil =>
    refine ⟨h, ?_, ?_, rfl, ?_, rfl, hlive, rfl, rfl⟩
    · simp [handle, hlive]
    · simpa using hexec.symm
    · simp
  | cons d rest ih =>
    cases d with
    | destroy id =>
      have hne : ¬ h.myID = id := fun e => hdestroy id (List.mem_cons_self _ _) e.symm
      obtain ⟨h', hrun, hrest⟩ :=
        ih h htopic hlive hexec (fun i hi => hdestroy i (List.mem_cons_of_mem _ hi))
      refine ⟨h', ?_, ?_⟩
      · simpa [handle, hlive, Delivery.msg, hne] using hrun
      · simpa [Delivery.event?] using hrest
    | event ev =>
      obtain ⟨h', hrun, he, hr, ht, hi, hc, hid, htp⟩ :=
        ih
          { h with
            executions := wrapInt64 (h.executions + 1)
            runs := h.runs + 1
            trace := h.trace ++
              [.invoke h.myID (w.uuid h.runs) ev.id h.myTopic ev.data,
                .returned (w.vmRun h.runs ev).1 (w.vmRun h.runs ev).2, .counted] }
          htopic hlive (wrapInt64_idem _)
          (fun i hi => hdestroy i (List.mem_cons_of_mem _ hi))
      refine ⟨h', ?_, ?_, ?_, ?_, ?_, hc, hid, htp⟩
      · simpa [handle, hlive, Delivery.msg, htopic] using hrun
      · rw [he]
        simp only [Delivery.event?, List.filterMap_cons, List.length_cons]
        exact wrapInt64_add_succ _ _
      · rw [hr]
        simp only [Delivery.event?, List.filterMap_cons, List.length_cons]
        omega
      · rw [ht]
        simp [Delivery.event?, List.enumFrom_cons, invocation]
      · rw [hi]
        simp only [Delivery.event?, List.filterMap_cons, List.length_cons,
          invocations_append]
        simp [invocations]
        omega

end Archway

namespace Archway

open Dagger

/-- Counterexample to C7: a live handler whose data topic is the reserved
destroy topic receives one Event on its data topic; the loop takes the
destroy branch, the type assertion on the payload panics, and the guest is not
invoked. -/
theorem handle_event_on_destroy_topic_counterexample :
    Sample.controlHandler.cancelled = false ∧
    Delivery.msg Sample.controlHandler (.event Sample.event1) =
      ⟨Sample.controlHandler.myTopic, .event Sample.event1⟩ ∧
    handle Sample.world Sample.controlHandler
        [Delivery.msg Sample.controlHandler (.event Sample.event1)] =
      (Sample.controlHandler, .panicked, []) := by
  refine ⟨rfl, rfl, by rfl⟩

/-- C7 as amended: a live handler whose data topic is not the reserved
destroy topic, given any deliveries made of Events on its data topic and of
Destroy messages for other handlers, takes them all and is then waiting for
the next message; it invokes the guest once per Event, in delivery order, each
invocation returning and being counted before the next starts, whatever the
invocations return; the execution counter grows by the number of Events in
`int64` arithmetic, so by exactly that number when it does not overflow. -/
theorem handle_invokes_guest_once_per_event (w : World) (h : Handler) (ds : List Delivery)
    (htopic : h.myTopic ≠ destroyTopic) (hlive : h.cancelled = false)
    (hexec : -2 ^ 63 ≤ h.executions ∧ h.executions < 2 ^ 63)
    (hdestroy : ∀ id, Delivery.destroy id ∈ ds → id ≠ h.myID) :
    ∃ h', handle w h (ds.map (Delivery.msg h)) = (h', .waiting, []) ∧
      invocations h'.trace = invocations h.trace + (ds.filterMap Delivery.event?).length ∧
      h'.trace = h.trace ++
        ((ds.filterMap Delivery.event?).enumFrom h.runs).flatMap
          (fun ke => invocation w h ke.1 ke.2) ∧
      h'.executions =
        wrapInt64 (h.executions + ((ds.filterMap Delivery.event?).length : Nat)) ∧
      (h.executions + ((ds.filterMap Delivery.event?).length : Nat) < 2 ^ 63 →
        h'.executions = h.executions + ((ds.filterMap Delivery.event?).length : Nat)) ∧
      h'.cancelled = false := by
  obtain ⟨h', hrun, he, _, ht, hi, hc, _, _⟩ :=
    handle_deliveries w ds h htopic hlive (wrapInt64_of_range hexec.1 hexec.2) hdestroy
  refine ⟨h', hrun, hi, ht, he, ?_, hc⟩
  intro hlt
  rw [he, wrapInt64_of_range (by omega) hlt]

/-- Witness of C7 as amended: two Events around a Destroy for another
handler, with a guest that fails each time. -/
theorem handle_invokes_guest_once_per_event_witness :
    ∃ h', handle Sample.world Sample.handler
        ([Delivery.event Sample.event1, .destroy "h2", .event Sample.event2].map
          (Delivery.msg Sample.handler)) = (h', .waiting, []) ∧
      invocations h'.trace = 2 ∧ h'.executions = 2 := by
  obtain ⟨h', hrun, hi, _, _, he, _⟩ :=
    handle_invokes_guest_once_per_event Sample.world Sample.handler
      [Delivery.event Sample.event1, .destroy "h2", .event Sample.event2]
      (by decide) rfl (by decide)
      (by
        intro id hid
        simp at hid
        subst hid
        decide)
  exact ⟨h', hrun, by simpa [Delivery.event?, invocations, Sample.handler] using hi,
    by simpa [Delivery.event?, Sample.handler] using he (by decide)⟩

/-- C8, what the code does: handler `h1` receives the Destroy for `h1` while an
Event is pending and the `select` of the next iteration takes the pending
message; the loop calls `cancel`, then invokes the guest for the Event and
counts it, and only then returns. -/
theorem handle_consumes_after_matching_destroy :
    handle Sample.world Sample.handler
        [Delivery.msg Sample.handler (.destroy "h1"),
          Delivery.msg Sample.handler (.event Sample.event1)] =
      ({ myID := "h1", myTopic := "jobs", executions := 1, cancelled := true, runs := 1,
          trace := [.cancel, .invoke "h1" "run" "e1" "jobs" [104, 105], .returned (-1) true,
            .counted] },
        .returned, []) := by
  rfl

/-- A Destroy message taken by a live handler: for another id the loop goes
on as if the message had not been delivered; for its own id `cancel` is
called and nothing else, after which the loop returns at the first iteration
whose `select` takes `ctx.Done()`, as it must when no message is pending. -/
theorem handle_destroy (w : World) (h : Handler) (id : String) (rest : List Message)
    (hlive : h.cancelled = false) :
    (id ≠ h.myID → handle w h (⟨destroyTopic, .handler id⟩ :: rest) = handle w h rest) ∧
    (id = h.myID →
      handle w h (⟨destroyTopic, .handler id⟩ :: rest) =
        handle w { h with cancelled := true, trace := h.trace ++ [.cancel] } rest) ∧
    (∀ h0 : Handler, h0.cancelled = true → handle w h0 [] = (h0, .returned, [])) ∧
    (∀ (h0 : Handler) (m : Message) (ms : List Message), h0.cancelled = true →
      w.sel (ms.length + 1) = false → handle w h0 (m :: ms) = (h0, .returned, m :: ms)) := by
  refine ⟨?_, ?_, ?_, ?_⟩
  · intro hne
    have hne' : ¬ h.myID = id := fun e => hne e.symm
    simp [handle, hlive, hne']
  · intro heq
    simp [handle, hlive, heq]
  · intro h0 hc
    simp [handle, hc]
  · intro h0 m ms hc hsel
    simp [handle, hc, hsel]

end Archway
